import Mathlib

/-! Formal model of the food-analysis pipeline of app.py
(class AdvancedFoodAnalyzer): per-pixel color bucketing, the color
distribution, dominant-bucket selection, the static nutrition table and
result assembly.  Pixels come from a numpy uint8 array, so the channel
arithmetic the source performs — max(g, b) + 20 and abs(r - g) — wraps
modulo 256; the model makes that wrapping explicit on Nat.  Percentage
strings produced with the .1f format are modelled as exact rationals
rounded to one decimal place (round half to even, matching IEEE-754
decimal formatting wherever the quotient is exactly representable). -/

namespace Foodent

/-- An RGB pixel: channel values are uint8, i.e. naturals below 256. -/
abbrev Pixel := Nat × Nat × Nat

/-- Wraparound uint8 subtraction a - b (for a b < 256); the abs applied
to the unsigned result in the source is the identity. -/
def usub (a b : Nat) : Nat := (a + 256 - b) % 256

/-- The nested function categorize_color of analyze_image: ordered
threshold rules evaluated top-to-bottom, first match wins.  The source
expressions max(g, b) + 20 and abs(r - g) are uint8 operations and wrap
modulo 256. -/
def categorize_color : Pixel → String
  | (r, g, b) =>
  if max r (max g b) < 30 then "black"
  else if min r (min g b) > 225 then "white"
  else if r > (max g b + 20) % 256 then "red"
  else if g > (max r b + 20) % 256 then "green"
  else if b > (max r g + 20) % 256 then "blue"
  else if usub r g < 20 ∧ usub g b < 20 ∧ usub r b < 20 then "gray"
  else if r > 150 ∧ g > 150 then "yellow"
  else "brown"

/-- One step of the dict update in the pixel loop, on an
insertion-ordered association list (Python dict semantics: an existing
key is updated in place, a new key is appended at the end). -/
def bump : List (String × Nat) → String → List (String × Nat)
  | [], c => [(c, 1)]
  | (k, v) :: rest, c =>
      if k = c then (k, v + 1) :: rest else (k, v) :: bump rest c

/-- The dict color_counts built by the pixel loop of analyze_image. -/
def color_counts (pixels : List Pixel) : List (String × Nat) :=
  pixels.foldl (fun acc p => bump acc (categorize_color p)) []

/-- Number of pixels of the list categorized into bucket c. -/
def cnt (c : String) (pixels : List Pixel) : Nat :=
  pixels.countP (fun p => categorize_color p == c)

/-- Round a rational to the nearest integer, ties to even. -/
def halfEven (q : ℚ) : ℤ :=
  if q - ⌊q⌋ < 1/2 then ⌊q⌋
  else if 1/2 < q - ⌊q⌋ then ⌊q⌋ + 1
  else if ⌊q⌋ % 2 = 0 then ⌊q⌋ else ⌊q⌋ + 1

/-- Round to one decimal place (the .1f format of the source). -/
def round1 (q : ℚ) : ℚ := (halfEven (10 * q) : ℚ) / 10

/-- The reported percentage of count pixels out of total. -/
def pct (count total : Nat) : ℚ := round1 ((count * 100 : ℚ) / total)

/-- The dict color_distribution: bucket to rounded percentage (the
source stores a percent string in .1f format; we carry the numeric
value). -/
def color_distribution (pixels : List Pixel) : List (String × ℚ) :=
  (color_counts pixels).map (fun kv => (kv.1, pct kv.2 pixels.length))

/-- Selection of the dominant bucket, max over dict items keyed on the
count: Python max keeps the first maximal item, since a later item
replaces the current best only when strictly greater.  Returns none on
the empty dict, where Python raises ValueError and the surrounding
except clause turns it into an error dict. -/
def dominant_color (counts : List (String × Nat)) : Option String :=
  match counts with
  | [] => none
  | kv :: rest =>
      some (rest.foldl (fun best x => if x.2 > best.2 then x else best) kv).1

/-- The nutrients sub-dict of a food_database entry. -/
structure Nutrients where
  protein : ℚ
  carbs : ℚ
  fat : ℚ
  fiber : ℚ
  sugar : ℚ
  sodium : ℚ
  vitamins : List (String × Nat)
  minerals : List (String × Nat)
deriving DecidableEq

/-- One entry of the food_database dict. -/
structure FoodRecord where
  name : String
  calories : Nat
  nutrients : Nutrients
  allergens : List String
  healthScore : Nat
  sustainability_score : Nat
  preparation_time : String
  cooking_method : List String
  dietary_tags : List String
deriving DecidableEq

/-- The red_dominant entry of the food_database. -/
def red_record : FoodRecord where
  name := "Tomato-based/Red Meat Dish"
  calories := 250
  nutrients :=
    { protein := 8, carbs := 30, fat := 12, fiber := 4, sugar := 6
      sodium := 500
      vitamins := [("A", 25), ("C", 35), ("B12", 40), ("D", 15), ("E", 20)]
      minerals := [("Iron", 15), ("Zinc", 20), ("Magnesium", 10)] }
  allergens := ["none"]
  healthScore := 75
  sustainability_score := 65
  preparation_time := "30-45 mins"
  cooking_method := ["Grilling", "Baking", "Pan-frying"]
  dietary_tags := ["High-protein", "Gluten-free"]

/-- The green_dominant entry of the food_database. -/
def green_record : FoodRecord where
  name := "Vegetable/Salad Dish"
  calories := 150
  nutrients :=
    { protein := 5, carbs := 20, fat := 8, fiber := 6, sugar := 4
      sodium := 300
      vitamins := [("A", 40), ("C", 60), ("K", 45), ("E", 30), ("B6", 25)]
      minerals := [("Iron", 10), ("Calcium", 15), ("Potassium", 20)] }
  allergens := ["none"]
  healthScore := 90
  sustainability_score := 95
  preparation_time := "15-20 mins"
  cooking_method := ["Raw", "Steaming", "Light sautéing"]
  dietary_tags := ["Vegan", "Low-calorie", "High-fiber"]

/-- The food_database dict, in insertion order. -/
def food_database : List (String × FoodRecord) :=
  [("red_dominant", red_record), ("green_dominant", green_record)]

/-- Association-list lookup: a Python dict probe by key. -/
def findVal {β : Type} : List (String × β) → String → Option β
  | [], _ => none
  | (k, v) :: rest, key => if k = key then some v else findVal rest key

/-- The defaulting lookup of analyze_image: dict get on the key built
from the dominant color, with the red_dominant record as the default for
every absent key. -/
def dbGet (key : String) : FoodRecord :=
  match findVal food_database key with
  | some r => r
  | none => red_record

/-- The dict formatted_nutrients (the source renders gram quantities as
strings with a g or mg suffix; we carry the numeric values). -/
structure FormattedNutrients where
  protein : ℚ
  carbs : ℚ
  fat : ℚ
  fiber : ℚ
  sugar : ℚ
  sodium : ℚ
  vitamins : List (String × Nat)
  minerals : List (String × Nat)
deriving DecidableEq

/-- Assembly of formatted_nutrients from the looked-up record. -/
def format_nutrients (f : FoodRecord) : FormattedNutrients where
  protein := f.nutrients.protein
  carbs := f.nutrients.carbs
  fat := f.nutrients.fat
  fiber := f.nutrients.fiber
  sugar := f.nutrients.sugar
  sodium := f.nutrients.sodium
  vitamins := f.nutrients.vitamins
  minerals := f.nutrients.minerals

/-- The results dict returned by a successful analyze_image call. -/
structure Results where
  name : String
  calories : Nat
  nutrients : FormattedNutrients
  allergens : List String
  healthScore : Nat
  sustainability_score : Nat
  preparation_time : String
  cooking_method : List String
  color_distribution : List (String × ℚ)
  dietary_tags : List String
deriving DecidableEq

/-- Outcome of analyze_image: the results dict, or the error dict
produced by the except clause. -/
inductive AnalyzeOutcome
  | ok (r : Results)
  | error (details : String)
deriving DecidableEq

/-- The body of analyze_image after the flattening reshape: count
buckets, build the distribution, pick the dominant bucket and keep the
record found by the defaulting dict get. -/
def analyze_pixels (pixels : List Pixel) : AnalyzeOutcome :=
  let counts := color_counts pixels
  let dist := counts.map (fun kv => (kv.1, pct kv.2 pixels.length))
  match dominant_color counts with
  | none => .error "max() arg is an empty sequence"
  | some dc =>
    let food_info := dbGet (dc ++ "_dominant")
    .ok
      { name := food_info.name
        calories := food_info.calories
        nutrients := format_nutrients food_info
        allergens := food_info.allergens
        healthScore := food_info.healthScore
        sustainability_score := food_info.sustainability_score
        preparation_time := food_info.preparation_time
        cooking_method := food_info.cooking_method
        color_distribution := dist
        dietary_tags := food_info.dietary_tags }

/-- A decoded image as the numpy array obtained from the PIL image: RGBA
of shape (h, w, 4), RGB of shape (h, w, 3), or grayscale of shape
(h, w).  Any other shape, e.g. 2-channel LA, raises inside the reshape
and surfaces through the generic except path; such shapes are outside
this model. -/
inductive ImgArray
  | rgba (width height : Nat) (px : List (Nat × Nat × Nat × Nat))
  | rgb (width height : Nat) (px : List Pixel)
  | gray (width height : Nat) (px : List Nat)
deriving DecidableEq

/-- Width of the pixel grid. -/
def ImgArray.width : ImgArray → Nat
  | .rgba w _ _ => w
  | .rgb w _ _ => w
  | .gray w _ _ => w

/-- Height of the pixel grid. -/
def ImgArray.height : ImgArray → Nat
  | .rgba _ h _ => h
  | .rgb _ h _ => h
  | .gray _ h _ => h

/-- The mode coercion at the top of analyze_image: RGBA drops the alpha
channel by slicing the first three channels, grayscale stacks the single
channel three times, RGB passes through.  No resampling of any kind
occurs: the pixel grid dimensions are untouched. -/
def normalize : ImgArray → Nat × Nat × List Pixel
  | .rgba w h px => (w, h, px.map (fun p => (p.1, p.2.1, p.2.2.1)))
  | .rgb w h px => (w, h, px)
  | .gray w h px => (w, h, px.map (fun v => (v, v, v)))

/-- analyze_image end to end on a decoded image. -/
def analyze_image (img : ImgArray) : AnalyzeOutcome :=
  analyze_pixels (normalize img).2.2

/-- Whether the outcome is the error dict. -/
def isError : AnalyzeOutcome → Bool
  | .ok _ => false
  | .error _ => true

/-- The name field of a successful outcome. -/
def resultName : AnalyzeOutcome → Option String
  | .ok r => some r.name
  | .error _ => none

/-- An interpreter for ordered (condition, bucket) rule lists: rules are
tried top-to-bottom, the first matching rule wins, and a default bucket
applies when none matches.  Stated from the description of the
ColorProfiler in the specification, to be compared against
categorize_color. -/
def firstMatch : List ((Pixel → Bool) × String) → String → Pixel → String
  | [], dflt, _ => dflt
  | (cond, nm) :: rest, dflt, p =>
      if cond p then nm else firstMatch rest dflt p

/-- The ordered threshold rules of categorize_color, as a rule list. -/
def orderedColorRules : List ((Pixel → Bool) × String) :=
  [ (fun p => decide (max p.1 (max p.2.1 p.2.2) < 30), "black"),
    (fun p => decide (min p.1 (min p.2.1 p.2.2) > 225), "white"),
    (fun p => decide (p.1 > (max p.2.1 p.2.2 + 20) % 256), "red"),
    (fun p => decide (p.2.1 > (max p.1 p.2.2 + 20) % 256), "green"),
    (fun p => decide (p.2.2 > (max p.1 p.2.1 + 20) % 256), "blue"),
    (fun p => decide (usub p.1 p.2.1 < 20 ∧ usub p.2.1 p.2.2 < 20 ∧
      usub p.1 p.2.2 < 20), "gray"),
    (fun p => decide (p.1 > 150 ∧ p.2.1 > 150), "yellow") ]

/-- The eight bucket names categorize_color can produce. -/
def allBuckets : List String :=
  ["black", "white", "red", "green", "blue", "gray", "yellow", "brown"]

/-! ### Counting and lookup lemmas -/

theorem bump_findVal (l : List (String × Nat)) (c d : String) :
    findVal (bump l d) c =
      if c = d then some (((findVal l c).getD 0) + 1) else findVal l c := by
  induction l with
  | nil =>
      by_cases h : c = d
      · subst h; simp [bump, findVal]
      · simp [bump, findVal, h, Ne.symm h]
  | cons kv rest ih =>
      obtain ⟨k, v⟩ := kv
      by_cases hkd : k = d
      · subst hkd
        by_cases hck : k = c
        · subst hck; simp [bump, findVal]
        · have hck' : ¬c = k := fun h => hck (Eq.symm h)
          simp [bump, findVal, hck, hck']
      · by_cases hck : k = c
        · subst hck
          simp [bump, findVal, hkd]
        · simp [bump, findVal, hkd, hck, ih]

theorem foldl_bump_findVal (l : List Pixel) :
    ∀ (acc : List (String × Nat)) (c : String),
      findVal (l.foldl (fun a p => bump a (categorize_color p)) acc) c =
        match findVal acc c with
        | some v => some (v + cnt c l)
        | none => if cnt c l = 0 then none else some (cnt c l) := by
  induction l with
  | nil =>
      intro acc c
      simp only [List.foldl_nil, cnt, List.countP_nil]
      cases findVal acc c <;> simp
  | cons p t ih =>
      intro acc c
      rw [List.foldl_cons, ih, bump_findVal]
      by_cases h : c = categorize_color p
      · have hb : (categorize_color p == c) = true := by simp [h]
        simp only [if_pos h, cnt, List.countP_cons, hb]
        cases hacc : findVal acc c <;> simp <;> omega
      · have hb : (categorize_color p == c) = false := by
          simp; exact fun hh => h hh.symm
        simp only [if_neg h, cnt, List.countP_cons, hb]
        cases hacc : findVal acc c <;> simp

theorem color_counts_findVal (pixels : List Pixel) (c : String) :
    findVal (color_counts pixels) c =
      if cnt c pixels = 0 then none else some (cnt c pixels) := by
  have h := foldl_bump_findVal pixels [] c
  simpa [color_counts, findVal] using h

theorem findVal_map_pct (l : List (String × Nat)) (N : Nat) (c : String) :
    findVal (l.map (fun kv => (kv.1, pct kv.2 N))) c =
      (findVal l c).map (fun n => pct n N) := by
  induction l with
  | nil => simp [findVal]
  | cons kv rest ih =>
      obtain ⟨k, v⟩ := kv
      by_cases h : k = c <;> simp [findVal, h, ih]

theorem color_distribution_findVal (pixels : List Pixel) (c : String) :
    findVal (color_distribution pixels) c =
      if cnt c pixels = 0 then none
      else some (round1 ((cnt c pixels * 100 : ℚ) / pixels.length)) := by
  rw [color_distribution, findVal_map_pct, color_counts_findVal]
  by_cases h : cnt c pixels = 0 <;> simp [h, pct]

theorem bump_sum (l : List (String × Nat)) (c : String) :
    ((bump l c).map Prod.snd).sum = (l.map Prod.snd).sum + 1 := by
  induction l with
  | nil => simp [bump]
  | cons kv rest ih =>
      obtain ⟨k, v⟩ := kv
      by_cases h : k = c <;> simp [bump, h, ih] <;> omega

theorem foldl_bump_sum (l : List Pixel) :
    ∀ acc : List (String × Nat),
      ((l.foldl (fun a p => bump a (categorize_color p)) acc).map Prod.snd).sum =
        (acc.map Prod.snd).sum + l.length := by
  induction l with
  | nil => intro acc; simp
  | cons p t ih =>
      intro acc
      rw [List.foldl_cons, ih, bump_sum]
      simp [List.length_cons]
      omega

theorem color_counts_sum (pixels : List Pixel) :
    ((color_counts pixels).map Prod.snd).sum = pixels.length := by
  simpa [color_counts] using foldl_bump_sum pixels []

theorem color_counts_ne_nil (pixels : List Pixel) (h : pixels ≠ []) :
    color_counts pixels ≠ [] := by
  intro hc
  have hs := color_counts_sum pixels
  rw [hc] at hs
  simp at hs
  exact h (List.length_eq_zero.mp hs.symm)

/-! ### Dominant-bucket selection lemmas -/

theorem foldl_pick_mem (t : List (String × Nat)) (b : String × Nat) :
    t.foldl (fun best x => if x.2 > best.2 then x else best) b = b ∨
      t.foldl (fun best x => if x.2 > best.2 then x else best) b ∈ t := by
  induction t generalizing b with
  | nil => left; rfl
  | cons x t ih =>
      rw [List.foldl_cons]
      rcases ih (if x.2 > b.2 then x else b) with h | h
      · by_cases hx : x.2 > b.2
        · right; rw [h, if_pos hx]; exact List.mem_cons_self _ _
        · left; rw [h, if_neg hx]
      · right; exact List.mem_cons_of_mem _ h

theorem foldl_pick_ge (t : List (String × Nat)) (b : String × Nat) :
    b.2 ≤ (t.foldl (fun best x => if x.2 > best.2 then x else best) b).2 ∧
      ∀ x ∈ t, x.2 ≤ (t.foldl (fun best x => if x.2 > best.2 then x else best) b).2 := by
  induction t generalizing b with
  | nil => exact ⟨le_refl _, by simp⟩
  | cons y t ih =>
      rw [List.foldl_cons]
      obtain ⟨h1, h2⟩ := ih (if y.2 > b.2 then y else b)
      refine ⟨le_trans ?_ h1, ?_⟩
      · by_cases hy : y.2 > b.2
        · rw [if_pos hy]; omega
        · rw [if_neg hy]
      · intro x hx
        rcases List.mem_cons.mp hx with rfl | hx
        · refine le_trans ?_ h1
          by_cases hy : x.2 > b.2
          · rw [if_pos hy]
          · rw [if_neg hy]; omega
        · exact h2 x hx

theorem dominant_color_spec (counts : List (String × Nat)) (c : String)
    (h : dominant_color counts = some c) :
    ∃ n, (c, n) ∈ counts ∧ ∀ kv ∈ counts, kv.2 ≤ n := by
  match counts with
  | [] => simp [dominant_color] at h
  | kv :: rest =>
    simp only [dominant_color, Option.some.injEq] at h
    refine ⟨(rest.foldl (fun best x => if x.2 > best.2 then x else best) kv).2, ?_, ?_⟩
    · have hpair : (c, (rest.foldl (fun best x => if x.2 > best.2 then x else best) kv).2)
          = rest.foldl (fun best x => if x.2 > best.2 then x else best) kv := by
        rw [← h]
      rw [hpair]
      rcases foldl_pick_mem rest kv with h1 | h1
      · rw [h1]; exact List.mem_cons_self _ _
      · exact List.mem_cons_of_mem _ h1
    · intro kv' hkv'
      obtain ⟨h1, h2⟩ := foldl_pick_ge rest kv
      rcases List.mem_cons.mp hkv' with rfl | hmem
      · exact h1
      · exact h2 _ hmem

theorem dominant_color_isSome (counts : List (String × Nat)) (h : counts ≠ []) :
    ∃ c, dominant_color counts = some c := by
  match counts with
  | [] => exact absurd rfl h
  | kv :: rest => exact ⟨_, rfl⟩

/-! ### Bucket-range lemmas -/

theorem categorize_color_mem_allBuckets (p : Pixel) :
    categorize_color p ∈ allBuckets := by
  obtain ⟨r, g, b⟩ := p
  simp only [categorize_color, allBuckets]
  split_ifs <;> simp

theorem bump_keys {P : String → Prop} (l : List (String × Nat)) (c : String)
    (hl : ∀ kv ∈ l, P kv.1) (hc : P c) : ∀ kv ∈ bump l c, P kv.1 := by
  induction l with
  | nil =>
      intro kv hkv
      simp [bump] at hkv
      rw [hkv]
      exact hc
  | cons hd rest ih =>
      obtain ⟨k, v⟩ := hd
      intro kv hkv
      by_cases h : k = c
      · rw [bump, if_pos h] at hkv
        rcases List.mem_cons.mp hkv with rfl | hmem
        · exact hl (k, v) (List.mem_cons_self _ _)
        · exact hl kv (List.mem_cons_of_mem _ hmem)
      · rw [bump, if_neg h] at hkv
        rcases List.mem_cons.mp hkv with rfl | hmem
        · exact hl (k, v) (List.mem_cons_self _ _)
        · exact ih (fun kv h => hl kv (List.mem_cons_of_mem _ h)) kv hmem

theorem color_counts_keys {P : String → Prop}
    (hP : ∀ p : Pixel, P (categorize_color p)) (pixels : List Pixel) :
    ∀ kv ∈ color_counts pixels, P kv.1 := by
  suffices h : ∀ (l : List Pixel) (acc : List (String × Nat)),
      (∀ kv ∈ acc, P kv.1) →
      ∀ kv ∈ l.foldl (fun a p => bump a (categorize_color p)) acc, P kv.1 by
    exact h pixels [] (by simp)
  intro l
  induction l with
  | nil => intro acc hacc; simpa using hacc
  | cons p t ih =>
      intro acc hacc
      rw [List.foldl_cons]
      exact ih _ (bump_keys _ _ hacc (hP p))

theorem dominant_bucket_mem (pixels : List Pixel) (c : String)
    (h : dominant_color (color_counts pixels) = some c) : c ∈ allBuckets := by
  obtain ⟨n, hmem, -⟩ := dominant_color_spec _ _ h
  exact color_counts_keys (fun p => categorize_color_mem_allBuckets p) pixels (c, n) hmem

/-! ### Catalog lookup case lemmas -/

theorem dbGet_not_red_green (c : String) (hc : c ∈ allBuckets)
    (h1 : c ≠ "red") (h2 : c ≠ "green") :
    dbGet (c ++ "_dominant") = red_record := by
  simp only [allBuckets, List.mem_cons, List.not_mem_nil, or_false] at hc
  rcases hc with rfl | rfl | rfl | rfl | rfl | rfl | rfl | rfl
  · decide
  · decide
  · exact absurd rfl h1
  · exact absurd rfl h2
  · decide
  · decide
  · decide
  · decide

theorem dbGet_bucket_cases (c : String) (hc : c ∈ allBuckets) :
    dbGet (c ++ "_dominant") = red_record ∨
      dbGet (c ++ "_dominant") = green_record := by
  simp only [allBuckets, List.mem_cons, List.not_mem_nil, or_false] at hc
  rcases hc with rfl | rfl | rfl | rfl | rfl | rfl | rfl | rfl
  · left; decide
  · left; decide
  · left; decide
  · right; decide
  · left; decide
  · left; decide
  · left; decide
  · left; decide

/-! ### Rounding bounds -/

theorem halfEven_nonneg (q : ℚ) (h : 0 ≤ q) : 0 ≤ halfEven q := by
  unfold halfEven
  have h0 : (0 : ℤ) ≤ ⌊q⌋ := Int.floor_nonneg.mpr h
  split_ifs <;> omega

theorem halfEven_le (q : ℚ) (m : ℤ) (h : q ≤ m) : halfEven q ≤ m := by
  unfold halfEven
  have hfl : ⌊q⌋ ≤ m := by
    have h1 : ⌊q⌋ ≤ ⌊(m : ℚ)⌋ := Int.floor_le_floor h
    simpa using h1
  have hq : (⌊q⌋ : ℚ) ≤ q := Int.floor_le q
  have hqm : q ≤ (m : ℚ) := h
  split_ifs with hc1 hc2 hc3
  · exact hfl
  · have hlt : (⌊q⌋ : ℚ) < (m : ℚ) := by linarith
    have : ⌊q⌋ < m := by exact_mod_cast hlt
    omega
  · exact hfl
  · have heq : q - (⌊q⌋ : ℚ) = 1/2 := le_antisymm (not_lt.mp hc2) (not_lt.mp hc1)
    have hlt : (⌊q⌋ : ℚ) < (m : ℚ) := by linarith
    have : ⌊q⌋ < m := by exact_mod_cast hlt
    omega

theorem round1_nonneg (q : ℚ) (h : 0 ≤ q) : 0 ≤ round1 q := by
  unfold round1
  have h1 : (0 : ℤ) ≤ halfEven (10 * q) := halfEven_nonneg _ (by linarith)
  have h2 : (0 : ℚ) ≤ ((halfEven (10 * q) : ℤ) : ℚ) := by exact_mod_cast h1
  linarith [div_nonneg h2 (by norm_num : (0:ℚ) ≤ 10)]

theorem round1_le_100 (q : ℚ) (h : q ≤ 100) : round1 q ≤ 100 := by
  unfold round1
  have h1 : halfEven (10 * q) ≤ (1000 : ℤ) := by
    apply halfEven_le
    push_cast
    linarith
  have h2 : ((halfEven (10 * q) : ℤ) : ℚ) ≤ 1000 := by exact_mod_cast h1
  rw [div_le_iff₀ (by norm_num : (0:ℚ) < 10)]
  linarith

/-! ### Pipeline unfolding helpers -/

theorem resultName_of_dominant (pixels : List Pixel) (dc : String)
    (h : dominant_color (color_counts pixels) = some dc) :
    resultName (analyze_pixels pixels) =
      some (dbGet (dc ++ "_dominant")).name := by
  simp [analyze_pixels, h, resultName]

theorem isError_of_dominant (pixels : List Pixel) (dc : String)
    (h : dominant_color (color_counts pixels) = some dc) :
    isError (analyze_pixels pixels) = false := by
  simp [analyze_pixels, h, isError]

theorem append_dominant_ne_mixed (c : String) : c ++ "_dominant" ≠ "mixed" := by
  intro h
  have hlen := congrArg String.length h
  rw [String.length_append] at hlen
  have h9 : ("_dominant" : String).length = 9 := by decide
  have h5 : ("mixed" : String).length = 5 := by decide
  rw [h9, h5] at hlen
  omega

theorem color_counts_replicate (n : Nat) (p : Pixel) (hn : n ≠ 0) :
    color_counts (List.replicate n p) = [(categorize_color p, n)] := by
  obtain ⟨m, rfl⟩ : ∃ m, n = m + 1 := ⟨n - 1, by omega⟩
  have key : ∀ (m k : Nat),
      (List.replicate m p).foldl (fun a q => bump a (categorize_color q))
          [(categorize_color p, k)] = [(categorize_color p, k + m)] := by
    intro m
    induction m with
    | zero => intro k; simp
    | succ m ih =>
        intro k
        rw [List.replicate_succ, List.foldl_cons]
        have hb : bump [(categorize_color p, k)] (categorize_color p)
            = [(categorize_color p, k + 1)] := by simp [bump]
        rw [hb, ih]
        have harith : k + 1 + m = k + (m + 1) := by omega
        rw [harith]
  rw [color_counts, List.replicate_succ, List.foldl_cons]
  have hb0 : bump [] (categorize_color p) = [(categorize_color p, 1)] := rfl
  rw [hb0, key m 1]
  have harith : 1 + m = m + 1 := by omega
  rw [harith]

/-! ### Concrete images used by the scenario claims -/

/-- A concrete image containing one pixel of each of the eight buckets;
every bucket then holds exactly 12.5 percent of the pixels. -/
def eightBucketPixels : List Pixel :=
  [(0, 0, 0), (255, 255, 255), (200, 50, 50), (50, 200, 50),
   (50, 50, 200), (100, 100, 100), (200, 200, 50), (140, 120, 60)]

/-- The all-white 100 by 100 image of the specification scenario. -/
def allWhiteImage : ImgArray :=
  ImgArray.rgb 100 100 (List.replicate 10000 (255, 255, 255))

/-- A ten-pixel image, 60 percent of the pixels red-dominant colored
(200, 50, 50) and 40 percent green-dominant colored (50, 200, 50). -/
def redGreenPixels : List Pixel :=
  List.replicate 6 (200, 50, 50) ++ List.replicate 4 (50, 200, 50)

/-! ### Claim theorems -/

/-- C1, counterexample.  On an image holding one pixel of each bucket,
the maximum bucket percentage is 12.5, strictly below a dominance
threshold of 15 percent (the specification observes configured thresholds
between 10 and 25 percent), yet the dominant-bucket selection inside
analyze_image still produces the key black_dominant — not the category
mixed — and the analysis answers with the red default record.  No mixed
fallback exists in the code. -/
theorem eight_bucket_image_not_mixed :
    color_counts eightBucketPixels =
      [("black", 1), ("white", 1), ("red", 1), ("green", 1),
       ("blue", 1), ("gray", 1), ("yellow", 1), ("brown", 1)] ∧
    pct 1 eightBucketPixels.length < 15 ∧
    dominant_color (color_counts eightBucketPixels) = some "black" ∧
    "black" ++ "_dominant" ≠ "mixed" ∧
    resultName (analyze_pixels eightBucketPixels) =
      some "Tomato-based/Red Meat Dish" := by
  refine ⟨by decide, ?_, by decide, by decide, by decide⟩
  have h8 : eightBucketPixels.length = 8 := rfl
  rw [h8]
  norm_num [pct, round1, halfEven]

/-- C1, amended.  The dominant-bucket selection inside analyze_image has
no dominance threshold: whenever it succeeds it picks a bucket carrying
the maximum count (Python max semantics: the first maximal bucket in
insertion order) and builds the key from that bucket, and the key is never
the category mixed, no matter how small the maximum percentage is. -/
theorem dominant_selection_always_dominant_key
    (counts : List (String × Nat)) (c : String)
    (h : dominant_color counts = some c) :
    (∃ n, (c, n) ∈ counts ∧ ∀ kv ∈ counts, kv.2 ≤ n) ∧
      c ++ "_dominant" ≠ "mixed" :=
  ⟨dominant_color_spec counts c h, append_dominant_ne_mixed c⟩

/-- Witness for the amended C1 theorem at a concrete one-bucket dict. -/
theorem dominant_selection_always_dominant_key_app :
    (∃ n, ("white", n) ∈ [("white", 4)] ∧
        ∀ kv ∈ [("white", 4)], kv.2 ≤ n) ∧
      "white" ++ "_dominant" ≠ "mixed" :=
  dominant_selection_always_dominant_key [("white", 4)] "white" (by decide)

/-- C2, counterexample.  The all-white 100 by 100 image (every pixel RGB
255, 255, 255) is not rejected: analyze_image contains no mean-intensity
or standard-deviation heuristic and no NoFoodDetected error, returns a
successful result for this image, and names it with the default
red_dominant record. -/
theorem all_white_image_not_rejected :
    isError (analyze_image allWhiteImage) = false ∧
    resultName (analyze_image allWhiteImage) =
      some "Tomato-based/Red Meat Dish" := by
  have hcc : color_counts (List.replicate 10000 ((255 : Nat), 255, 255))
      = [("white", 10000)] := by
    rw [color_counts_replicate 10000 (255, 255, 255) (by norm_num)]
    decide
  have hdom : dominant_color
      (color_counts (List.replicate 10000 ((255 : Nat), 255, 255)))
      = some "white" := by rw [hcc]; rfl
  have hpx : (normalize allWhiteImage).2.2
      = List.replicate 10000 ((255 : Nat), 255, 255) := rfl
  constructor
  · rw [analyze_image, hpx]
    exact isError_of_dominant _ _ hdom
  · rw [analyze_image, hpx, resultName_of_dominant _ _ hdom]
    decide

/-- C2, amended.  analyze_image performs no food-detection check at all:
for every nonempty pixel array the analysis succeeds with an
AnalysisResult; the only error path is the generic except clause (reached
for an empty pixel array), never a NoFoodDetected rejection. -/
theorem analyze_pixels_never_rejects_nonempty (pixels : List Pixel)
    (h : pixels ≠ []) : isError (analyze_pixels pixels) = false := by
  obtain ⟨c, hc⟩ := dominant_color_isSome _ (color_counts_ne_nil pixels h)
  exact isError_of_dominant pixels c hc

/-- Witness for the amended C2 theorem at the all-white pixel array. -/
theorem analyze_pixels_never_rejects_nonempty_app :
    isError (analyze_pixels (List.replicate 10000 ((255 : Nat), 255, 255)))
      = false :=
  analyze_pixels_never_rejects_nonempty _ (by
    intro h
    have hl := congrArg List.length h
    rw [List.length_replicate] at hl
    simp at hl)

/-- C3, counterexample.  The key white_dominant is producible by the
classifier (the all-white image produces it) and is absent from
food_database, yet the lookup does not fail with UnknownCategory or
anything else: the defaulting dict get silently answers the red_dominant
record.  The lookup therefore does not fail if and only if the key is
absent — it never fails — and the catalog is not complete over classifier
outputs. -/
theorem absent_key_returns_default_not_error :
    findVal food_database "white_dominant" = none ∧
    dbGet "white_dominant" = red_record :=
  ⟨by decide, by decide⟩

/-- C3, amended.  The catalog lookup never fails: for every key the
classifier can produce, the defaulting dict get answers a record — the
matching record for red_dominant and green_dominant, and the red_dominant
default for the six other producible keys, which are absent from the
catalog. -/
theorem classifier_keys_lookup_total (pixels : List Pixel) (c : String)
    (h : dominant_color (color_counts pixels) = some c) :
    dbGet (c ++ "_dominant") = red_record ∨
      dbGet (c ++ "_dominant") = green_record :=
  dbGet_bucket_cases c (dominant_bucket_mem pixels c h)

/-- Witness for the amended C3 theorem at a concrete white image. -/
theorem classifier_keys_lookup_total_app :
    dbGet ("white" ++ "_dominant") = red_record ∨
      dbGet ("white" ++ "_dominant") = green_record :=
  classifier_keys_lookup_total [(255, 255, 255)] "white" (by decide)

/-- C4, counterexample.  Image ingestion performs no downsizing: a
2000 by 2000 RGB image keeps its 2000-pixel longer edge after
normalization, exceeding 1600 pixels, the largest configured maximum the
specification observes. -/
theorem large_image_not_downsized :
    (normalize (ImgArray.rgb 2000 2000 [(0, 0, 0)])).1 = 2000 ∧
    ¬(2000 : Nat) ≤ 1600 :=
  ⟨rfl, by decide⟩

/-- C4, amended.  Image ingestion coerces every decoded image to a
3-channel representation (RGBA by dropping the alpha channel, grayscale
by stacking the channel three times) but performs no resizing at all: the
output grid dimensions always equal the input dimensions, so in
particular no image is ever upscaled. -/
theorem normalize_preserves_dimensions (img : ImgArray) :
    (normalize img).1 = img.width ∧ (normalize img).2.1 = img.height := by
  cases img <;> exact ⟨rfl, rfl⟩

/-! ### Sum helpers for the partition claim -/

theorem sum_map_div (l : List (String × Nat)) (N : ℚ) :
    (l.map (fun kv => (kv.2 * 100 : ℚ) / N)).sum
      = ((l.map (fun kv => (kv.2 : ℚ))).sum * 100) / N := by
  induction l with
  | nil => simp
  | cons kv rest ih =>
      simp only [List.map_cons, List.sum_cons, ih]
      rw [add_mul, add_div]

theorem sum_map_cast (l : List (String × Nat)) :
    (l.map (fun kv => (kv.2 : ℚ))).sum = (((l.map Prod.snd).sum : ℕ) : ℚ) := by
  induction l with
  | nil => simp
  | cons kv rest ih => simp [ih]

/-- C5.  Confirmed: the per-pixel classification is a total function
given by the ordered threshold rules evaluated top-to-bottom with first
match winning (near-black, near-white, red-dominant, green-dominant,
blue-dominant, gray, then the yellow test and the brown fallback), so
every pixel lands in exactly one bucket; and every reported bucket
percentage equals the count of pixels in the bucket divided by the total
pixel count, times 100, rounded to one decimal place — a bucket appears
in the distribution exactly when its count is nonzero. -/
theorem categorize_first_match_and_pct_formula :
    (∀ p : Pixel, categorize_color p = firstMatch orderedColorRules "brown" p) ∧
    (∀ (pixels : List Pixel) (c : String),
      findVal (color_distribution pixels) c =
        if cnt c pixels = 0 then none
        else some (round1 ((cnt c pixels * 100 : ℚ) / pixels.length))) := by
  constructor
  · intro p
    obtain ⟨r, g, b⟩ := p
    simp only [categorize_color, orderedColorRules, firstMatch,
      decide_eq_true_eq]
  · intro pixels c
    exact color_distribution_findVal pixels c

/-- C6.  Confirmed: on a ten-pixel image, six pixels of RGB 200, 50, 50
and four of RGB 50, 200, 50, the profiler reports red 60.0 percent and
green 40.0 percent, the dominant bucket is red, and the analysis answers
the genuine red_dominant catalog record (present in the catalog, not the
default path). -/
theorem red_green_scenario :
    color_distribution redGreenPixels = [("red", 60), ("green", 40)] ∧
    dominant_color (color_counts redGreenPixels) = some "red" ∧
    findVal food_database "red_dominant" = some red_record ∧
    resultName (analyze_pixels redGreenPixels) =
      some "Tomato-based/Red Meat Dish" := by
  have hcounts : color_counts redGreenPixels = [("red", 6), ("green", 4)] := by
    decide
  have hlen : redGreenPixels.length = 10 := rfl
  refine ⟨?_, by decide, by decide, by decide⟩
  rw [color_distribution, hcounts, hlen]
  norm_num [pct, round1, halfEven]

/-- C7.  Confirmed: the pipeline is a pure function of the decoded
image — byte-for-byte identical inputs give the identical color
distribution and the identical complete analysis result (the model has
no source of randomness, mirroring the code, which consults none). -/
theorem analyze_image_deterministic (img1 img2 : ImgArray)
    (h : img1 = img2) :
    color_distribution (normalize img1).2.2
        = color_distribution (normalize img2).2.2 ∧
    analyze_image img1 = analyze_image img2 := by
  rw [h]
  exact ⟨rfl, rfl⟩

/-- Witness for the C7 theorem at a concrete one-pixel image. -/
theorem analyze_image_deterministic_app :
    color_distribution (normalize (ImgArray.rgb 1 1 [(200, 50, 50)])).2.2
        = color_distribution (normalize (ImgArray.rgb 1 1 [(200, 50, 50)])).2.2 ∧
    analyze_image (ImgArray.rgb 1 1 [(200, 50, 50)])
        = analyze_image (ImgArray.rgb 1 1 [(200, 50, 50)]) :=
  analyze_image_deterministic _ _ rfl

/-- C8.  Confirmed: every percentage value stored in the color
distribution lies in the closed interval from 0 to 100. -/
theorem distribution_values_in_range (pixels : List Pixel) (c : String)
    (q : ℚ) (h : findVal (color_distribution pixels) c = some q) :
    0 ≤ q ∧ q ≤ 100 := by
  rw [color_distribution_findVal] at h
  by_cases h0 : cnt c pixels = 0
  · rw [if_pos h0] at h
    exact absurd h (by simp)
  · rw [if_neg h0] at h
    have hq := Option.some.inj h
    subst hq
    have hcle : cnt c pixels ≤ pixels.length := List.countP_le_length _
    have hpos : 0 < pixels.length := by
      have h1 : 0 < cnt c pixels := Nat.pos_of_ne_zero h0
      omega
    have hx0 : (0 : ℚ) ≤ (cnt c pixels * 100 : ℚ) / pixels.length := by
      positivity
    have hx100 : (cnt c pixels * 100 : ℚ) / pixels.length ≤ 100 := by
      rw [div_le_iff₀ (by exact_mod_cast hpos)]
      have hc : (cnt c pixels : ℚ) ≤ (pixels.length : ℚ) := by
        exact_mod_cast hcle
      linarith
    exact ⟨round1_nonneg _ hx0, round1_le_100 _ hx100⟩

/-- Witness for the C8 theorem at a concrete one-pixel image. -/
theorem distribution_values_in_range_app :
    (0 : ℚ) ≤ 100 ∧ (100 : ℚ) ≤ 100 :=
  distribution_values_in_range [(200, 50, 50)] "red" 100 (by
    have hcc : color_counts [((200 : Nat), 50, 50)] = [("red", 1)] := by
      decide
    rw [color_distribution, hcc]
    norm_num [findVal, pct, round1, halfEven])

/-- C9.  Confirmed: whenever the dominant bucket is neither red nor
green — white, black, blue, gray, yellow or brown — the analysis answers
the red_dominant catalog record named Tomato-based/Red Meat Dish, and a
successful analysis result always carries one of the two catalog names,
never a mixed or unknown category. -/
theorem non_red_green_defaults_to_tomato :
    (∀ (pixels : List Pixel) (c : String),
      dominant_color (color_counts pixels) = some c →
      c ≠ "red" → c ≠ "green" →
      resultName (analyze_pixels pixels) =
        some "Tomato-based/Red Meat Dish") ∧
    (∀ (pixels : List Pixel) (r : Results),
      analyze_pixels pixels = AnalyzeOutcome.ok r →
      r.name = "Tomato-based/Red Meat Dish" ∨
        r.name = "Vegetable/Salad Dish") := by
  constructor
  · intro pixels c h h1 h2
    rw [resultName_of_dominant pixels c h,
      dbGet_not_red_green c (dominant_bucket_mem pixels c h) h1 h2]
    rfl
  · intro pixels r h
    cases hd : dominant_color (color_counts pixels) with
    | none =>
        rw [analyze_pixels] at h
        simp only [hd] at h
        exact AnalyzeOutcome.noConfusion h
    | some c =>
        have hname : some (dbGet (c ++ "_dominant")).name = some r.name := by
          rw [← resultName_of_dominant pixels c hd, h]
          rfl
        have hr : r.name = (dbGet (c ++ "_dominant")).name :=
          (Option.some.inj hname).symm
        rcases dbGet_bucket_cases c (dominant_bucket_mem pixels c hd) with
          h3 | h3
        · left; rw [hr, h3]; rfl
        · right; rw [hr, h3]; rfl

/-- Witness for the C9 theorem at a concrete all-white image. -/
theorem non_red_green_defaults_to_tomato_app :
    resultName (analyze_pixels [((255 : Nat), 255, 255)]) =
      some "Tomato-based/Red Meat Dish" :=
  non_red_green_defaults_to_tomato.1 [(255, 255, 255)] "white"
    (by decide) (by decide) (by decide)

/-- C10.  Confirmed: the per-pixel classification is total and
exclusive, so the bucket counts partition the pixel multiset — their sum
equals the total number of pixels — and consequently for a nonempty
image the unrounded bucket percentages sum to exactly 100. -/
theorem bucket_counts_partition :
    (∀ pixels : List Pixel,
      ((color_counts pixels).map Prod.snd).sum = pixels.length) ∧
    (∀ pixels : List Pixel, pixels ≠ [] →
      ((color_counts pixels).map
          (fun kv => (kv.2 * 100 : ℚ) / pixels.length)).sum = 100) := by
  constructor
  · exact color_counts_sum
  · intro pixels h
    rw [sum_map_div, sum_map_cast, color_counts_sum]
    have hlen : (0 : ℚ) < pixels.length := by
      have h1 : 0 < pixels.length := List.length_pos.mpr h
      exact_mod_cast h1
    rw [mul_comm, mul_div_assoc, div_self (ne_of_gt hlen), mul_one]

/-- Witness for the C10 theorem at a concrete one-pixel image. -/
theorem bucket_counts_partition_app :
    ((color_counts [((255 : Nat), 255, 255)]).map
        (fun kv => (kv.2 * 100 : ℚ) /
          (List.length [((255 : Nat), 255, 255)]))).sum = 100 :=
  bucket_counts_partition.2 [(255, 255, 255)] (by decide)

end Foodent
